import Mathlib

/-!
Verification of the valuation core of `financial_portfolio`.

Shallow embedding of `src/valuation_abstraction.py` (the valuation
computation layer: six strategy classes and the YTM bisection solver).

Modelling conventions:
* Python floats are modelled as exact rationals (`ℚ`); Python lists as
  `List ℚ`; Python dicts (whose keys are strings with insertion order)
  as association lists `List (String × _)` looked up with `List.lookup`.
* Python raises exceptions; the embedding returns `Except ValError _`.
  A Python `ZeroDivisionError` (float division by zero raises in Python)
  is embedded as `ValError.domainError`, the spec's name for a
  mathematically undefined operation; a Python `KeyError` on a dict
  lookup is embedded as `ValError.missingMetric`, the spec's
  `MissingMetricError`.  The code never raises anything corresponding to
  the spec's `InvalidInputError` or `NoSolutionError`, so the error type
  has no such constructors.
* The two `while` loops of the YTM solver are modelled with explicit
  fuel; the value `none` means the loop did not finish within the given
  number of iterations.  A result that is `none` for every fuel models
  non-termination of the Python loop.
-/

namespace FinancialPortfolio

/-- Exception outcomes observable from the valuation strategies.
`domainError` embeds Python's `ZeroDivisionError` (the spec's
`DomainError`); `missingMetric` embeds Python's `KeyError` on a dict
lookup (the spec's `MissingMetricError`). -/
inductive ValError where
  | domainError
  | missingMetric
deriving DecidableEq, Repr

/-- Python division `a / b`: raises `ZeroDivisionError` when `b = 0`
(also for floats), otherwise returns the quotient. -/
def pydiv (a b : ℚ) : Except ValError ℚ :=
  if b = 0 then .error .domainError else .ok (a / b)

namespace DCFValuation

/-- Embeds `sum(cf / (1 + discount_rate) ** i for i, cf in enumerate(cash_flows, start=1))`,
unrolled: the generator is consumed left to right starting at index `i`;
the first failing division aborts the sum. -/
def pv (discount_rate : ℚ) : List ℚ → ℕ → Except ValError ℚ
  | [], _ => .ok 0
  | cf :: rest, i =>
    match pydiv cf ((1 + discount_rate) ^ i) with
    | .error e => .error e
    | .ok term =>
      match pv discount_rate rest (i + 1) with
      | .error e => .error e
      | .ok s => .ok (term + s)

/-- Source `DCFValuation.calculate`: discounted sum of `cash_flows` 1-indexed. -/
def calculate (cash_flows : List ℚ) (discount_rate : ℚ) : Except ValError ℚ :=
  pv discount_rate cash_flows 1

end DCFValuation

namespace DDMValuation

/-- Source `DDMValuation.calculate`: the same enumerate/sum pattern over
`dividends`, duplicated in the source. -/
def pv (discount_rate : ℚ) : List ℚ → ℕ → Except ValError ℚ
  | [], _ => .ok 0
  | d :: rest, i =>
    match pydiv d ((1 + discount_rate) ^ i) with
    | .error e => .error e
    | .ok term =>
      match pv discount_rate rest (i + 1) with
      | .error e => .error e
      | .ok s => .ok (term + s)

/-- Source `DDMValuation.calculate` on the `dividends` series. -/
def calculate (dividends : List ℚ) (discount_rate : ℚ) : Except ValError ℚ :=
  pv discount_rate dividends 1

end DDMValuation

namespace BondValuation

/-- Source `BondValuation.calculate`: the same enumerate/sum pattern over
`bond_cash_flows`, duplicated in the source. -/
def pv (discount_rate : ℚ) : List ℚ → ℕ → Except ValError ℚ
  | [], _ => .ok 0
  | cf :: rest, i =>
    match pydiv cf ((1 + discount_rate) ^ i) with
    | .error e => .error e
    | .ok term =>
      match pv discount_rate rest (i + 1) with
      | .error e => .error e
      | .ok s => .ok (term + s)

/-- Source `BondValuation.calculate` on the `bond_cash_flows` series. -/
def calculate (bond_cash_flows : List ℚ) (discount_rate : ℚ) : Except ValError ℚ :=
  pv discount_rate bond_cash_flows 1

end BondValuation

namespace CompsValuation

/-- Embeds `{k: sum(v) / len(v) for k, v in peer_metrics.items()}`: the dict
comprehension computes each mean in insertion order; an empty value list
makes `sum(v) / len(v)` a `0 / 0` and raises `ZeroDivisionError`. -/
def avg_peer_metrics : List (String × List ℚ) → Except ValError (List (String × ℚ))
  | [] => .ok []
  | (k, v) :: rest =>
    match pydiv v.sum (v.length : ℚ) with
    | .error e => .error e
    | .ok m =>
      match avg_peer_metrics rest with
      | .error e => .error e
      | .ok tail => .ok ((k, m) :: tail)

/-- Embeds `{k: target_metrics[k] * avg_peer_metrics[k] for k in target_metrics}`:
iterates the target keys in insertion order; a key absent from the
averaged peer dict raises `KeyError`. -/
def apply_multiples (avg : List (String × ℚ)) : List (String × ℚ) → Except ValError (List (String × ℚ))
  | [] => .ok []
  | (k, tv) :: rest =>
    match avg.lookup k with
    | none => .error .missingMetric
    | some a =>
      match apply_multiples avg rest with
      | .error e => .error e
      | .ok tail => .ok ((k, tv * a) :: tail)

/-- Source `CompsValuation.calculate`. -/
def calculate (target_metrics : List (String × ℚ)) (peer_metrics : List (String × List ℚ)) :
    Except ValError (List (String × ℚ)) :=
  match avg_peer_metrics peer_metrics with
  | .error e => .error e
  | .ok avg => apply_multiples avg target_metrics

end CompsValuation

namespace PrecedentTransactionsValuation

/-- Embeds `{k: sum(v) / len(v) for k, v in transactions_metrics.items()}`,
duplicated verbatim from the Comps strategy in the source. -/
def avg_transaction_metrics : List (String × List ℚ) → Except ValError (List (String × ℚ))
  | [] => .ok []
  | (k, v) :: rest =>
    match pydiv v.sum (v.length : ℚ) with
    | .error e => .error e
    | .ok m =>
      match avg_transaction_metrics rest with
      | .error e => .error e
      | .ok tail => .ok ((k, m) :: tail)

/-- Embeds `{k: target_metrics[k] * avg_transaction_metrics[k] for k in target_metrics}`. -/
def apply_transaction_multiples (avg : List (String × ℚ)) :
    List (String × ℚ) → Except ValError (List (String × ℚ))
  | [] => .ok []
  | (k, tv) :: rest =>
    match avg.lookup k with
    | none => .error .missingMetric
    | some a =>
      match apply_transaction_multiples avg rest with
      | .error e => .error e
      | .ok tail => .ok ((k, tv * a) :: tail)

/-- Source `PrecedentTransactionsValuation.calculate`. -/
def calculate (target_metrics : List (String × ℚ)) (transactions_metrics : List (String × List ℚ)) :
    Except ValError (List (String × ℚ)) :=
  match avg_transaction_metrics transactions_metrics with
  | .error e => .error e
  | .ok avg => apply_transaction_multiples avg target_metrics

end PrecedentTransactionsValuation

namespace YTMValuation

/-- Embeds `sum((coupon_rate * face_value) / (1 + rate) ** t for t in range(1, years + 1))`:
the coupon leg of the objective, accumulated over periods `1..years`. -/
def couponSum (coupon_rate face_value rate : ℚ) : ℕ → ℚ
  | 0 => 0
  | t + 1 => couponSum coupon_rate face_value rate t + (coupon_rate * face_value) / (1 + rate) ^ (t + 1)

/-- Embeds `ytm_function(rate)`: present value of coupons plus discounted face
value minus the current price.  All rates the solver feeds it are
nonnegative, so no division by zero can occur and total `ℚ` division is
faithful here. -/
def ytm_function (current_price coupon_rate face_value : ℚ) (years_to_maturity : ℕ) (rate : ℚ) : ℚ :=
  couponSum coupon_rate face_value rate years_to_maturity
    + face_value / (1 + rate) ^ years_to_maturity - current_price

/-- Embeds `while ytm_function(high) > 0: low, high = high, high * 2` with fuel:
`none` means the loop was still running after `fuel` doublings (the
source has no iteration cap at all). -/
def expand (f : ℚ → ℚ) : ℕ → ℚ → ℚ → Option (ℚ × ℚ)
  | 0, low, high => if f high > 0 then none else some (low, high)
  | fuel + 1, low, high =>
    if f high > 0 then expand f fuel high (high * 2) else some (low, high)

/-- Embeds `while high - low > 1e-6: mid = (low + high) / 2; ...` with fuel;
returns `high` when the bracket is tight enough, `none` when fuel ran
out first. -/
def bisect (f : ℚ → ℚ) : ℕ → ℚ → ℚ → Option ℚ
  | 0, low, high => if high - low > 1 / 1000000 then none else some high
  | fuel + 1, low, high =>
    if high - low > 1 / 1000000 then
      let mid := (low + high) / 2
      if f mid > 0 then bisect f fuel mid high else bisect f fuel low mid
    else some high

/-- Source `YTMValuation.calculate`: bracket expansion from `low, high = 0, 1`,
then bisection to absolute tolerance `1e-6`, returning `high`. -/
def calculate (current_price coupon_rate face_value : ℚ) (years_to_maturity : ℕ) (fuel : ℕ) :
    Option ℚ :=
  match expand (ytm_function current_price coupon_rate face_value years_to_maturity) fuel 0 1 with
  | none => none
  | some (low, high) =>
    bisect (ytm_function current_price coupon_rate face_value years_to_maturity) fuel low high

end YTMValuation

/-- The mathematical net-present-value formula of spec §4.1: the sum over
periods `t = 1..N` of `series[t] / (1 + rate)^t` (1-indexed periods). -/
def pvFormula (series : List ℚ) (rate : ℚ) : ℚ :=
  ∑ t in Finset.range series.length, series.getD t 0 / (1 + rate) ^ (t + 1)

/-- Arithmetic mean of spec §4.2, `avg(population[k])`. -/
def meanQ (v : List ℚ) : ℚ := v.sum / (v.length : ℚ)

/-! ## The discounted-cash-flow family (DCF, DDM, Bond) -/

lemma ddm_pv_eq_dcf_pv (r : ℚ) : ∀ (l : List ℚ) (i : ℕ),
    DDMValuation.pv r l i = DCFValuation.pv r l i := by
  intro l
  induction l with
  | nil => intro i; rfl
  | cons d tl ih => intro i; simp only [DDMValuation.pv, DCFValuation.pv, ih]

lemma bond_pv_eq_dcf_pv (r : ℚ) : ∀ (l : List ℚ) (i : ℕ),
    BondValuation.pv r l i = DCFValuation.pv r l i := by
  intro l
  induction l with
  | nil => intro i; rfl
  | cons cf tl ih => intro i; simp only [BondValuation.pv, DCFValuation.pv, ih]

lemma pv_spec (r : ℚ) (hr : r ≠ -1) : ∀ (l : List ℚ) (i : ℕ),
    DCFValuation.pv r l i =
      .ok (∑ t in Finset.range l.length, l.getD t 0 / (1 + r) ^ (i + t)) := by
  have h1r : (1 + r) ≠ 0 := fun h => hr (by linarith)
  intro l
  induction l with
  | nil => intro i; simp [DCFValuation.pv]
  | cons cf tl ih =>
    intro i
    have hpow : (1 + r) ^ i ≠ 0 := pow_ne_zero _ h1r
    simp only [DCFValuation.pv, pydiv, if_neg hpow, ih (i + 1)]
    congr 1
    rw [List.length_cons, Finset.sum_range_succ']
    simp only [List.getD_cons_succ, List.getD_cons_zero, Nat.add_zero, Nat.add_succ,
      Nat.succ_add]
    exact (add_comm _ _)

lemma dcf_calculate_eq_pvFormula (s : List ℚ) (r : ℚ) (hr : r ≠ -1) :
    DCFValuation.calculate s r = .ok (pvFormula s r) := by
  rw [DCFValuation.calculate, pv_spec r hr, pvFormula]
  congr 1
  exact Finset.sum_congr rfl fun t _ => by rw [Nat.add_comm 1 t]

lemma ddm_calculate_eq_pvFormula (s : List ℚ) (r : ℚ) (hr : r ≠ -1) :
    DDMValuation.calculate s r = .ok (pvFormula s r) := by
  rw [DDMValuation.calculate, ddm_pv_eq_dcf_pv]
  exact dcf_calculate_eq_pvFormula s r hr

lemma bond_calculate_eq_pvFormula (s : List ℚ) (r : ℚ) (hr : r ≠ -1) :
    BondValuation.calculate s r = .ok (pvFormula s r) := by
  rw [BondValuation.calculate, bond_pv_eq_dcf_pv]
  exact dcf_calculate_eq_pvFormula s r hr

/-- C1: for every non-empty cash-flow series and every discount rate
other than `-1`, the DCF, DDM and Bond strategies all return exactly
the sum over periods `t = 1..N` of `series[t] / (1 + rate)^t` (1-indexed
periods, no terminal value, no other adjustment). -/
theorem c1_pv_family_is_npv_sum (series : List ℚ) (rate : ℚ)
    (hne : series ≠ []) (hrate : rate ≠ -1) :
    DCFValuation.calculate series rate = .ok (pvFormula series rate) ∧
    DDMValuation.calculate series rate = .ok (pvFormula series rate) ∧
    BondValuation.calculate series rate = .ok (pvFormula series rate) :=
  ⟨dcf_calculate_eq_pvFormula series rate hrate,
   ddm_calculate_eq_pvFormula series rate hrate,
   bond_calculate_eq_pvFormula series rate hrate⟩

/-- Witness for C1 at `series = [10, 20]`, `rate = 1/10`. -/
theorem c1_pv_family_is_npv_sum_witness :
    DCFValuation.calculate [10, 20] (1/10) = .ok (pvFormula [10, 20] (1/10)) ∧
    DDMValuation.calculate [10, 20] (1/10) = .ok (pvFormula [10, 20] (1/10)) ∧
    BondValuation.calculate [10, 20] (1/10) = .ok (pvFormula [10, 20] (1/10)) :=
  c1_pv_family_is_npv_sum [10, 20] (1/10) (List.cons_ne_nil _ _) (by norm_num)

/-- C4: on any (per spec §3, non-empty) cash-flow series, rate `-1`
makes the discount factor zero and the strategies fail with the domain
error (Python's `ZeroDivisionError`, the spec's `DomainError`); no
numeric value is returned. -/
theorem c4_rate_neg_one_domain_error (series : List ℚ) (hne : series ≠ []) :
    DCFValuation.calculate series (-1) = .error .domainError ∧
    DDMValuation.calculate series (-1) = .error .domainError ∧
    BondValuation.calculate series (-1) = .error .domainError := by
  obtain ⟨cf, tl, rfl⟩ := List.exists_cons_of_ne_nil hne
  have h0 : ((1 + (-1) : ℚ)) ^ (1 : ℕ) = 0 := by norm_num
  refine ⟨?_, ?_, ?_⟩ <;>
    simp [DCFValuation.calculate, DDMValuation.calculate, BondValuation.calculate,
      ddm_pv_eq_dcf_pv, bond_pv_eq_dcf_pv, DCFValuation.pv, pydiv, h0]

/-- Witness for C4 at `series = [100]`. -/
theorem c4_rate_neg_one_domain_error_witness :
    DCFValuation.calculate [100] (-1) = .error .domainError ∧
    DDMValuation.calculate [100] (-1) = .error .domainError ∧
    BondValuation.calculate [100] (-1) = .error .domainError :=
  c4_rate_neg_one_domain_error [100] (List.cons_ne_nil _ _)

/-- C5 (failing input): on the empty series the code raises nothing and
returns the empty sum `0` at every rate — there is no
`InvalidInputError` anywhere in the code. -/
theorem c5_empty_series_returns_zero (rate : ℚ) :
    DCFValuation.calculate [] rate = .ok 0 ∧
    DDMValuation.calculate [] rate = .ok 0 ∧
    BondValuation.calculate [] rate = .ok 0 :=
  ⟨rfl, rfl, rfl⟩

lemma pvFormula_strict_anti (series : List ℚ) (hne : series ≠ [])
    (hpos : ∀ x ∈ series, 0 < x) {r1 r2 : ℚ} (h1 : -1 < r1) (h12 : r1 < r2) :
    pvFormula series r2 < pvFormula series r1 := by
  unfold pvFormula
  apply Finset.sum_lt_sum_of_nonempty
  · rw [Finset.nonempty_range_iff]
    simpa [List.length_eq_zero] using hne
  · intro t ht
    rw [Finset.mem_range] at ht
    have hx : series.getD t 0 ∈ series := by
      rw [List.getD_eq_getElem _ _ ht]
      exact List.getElem_mem ht
    have hxpos := hpos _ hx
    have h1r1 : (0 : ℚ) < 1 + r1 := by linarith
    refine div_lt_div_of_pos_left hxpos (pow_pos h1r1 _) ?_
    exact pow_lt_pow_left₀ (by linarith) (le_of_lt h1r1) (Nat.succ_ne_zero t)

/-- C8: for an all-positive non-empty series and `-1 < r1 < r2`, the
present value returned at `r1` is strictly greater than the one returned
at `r2`: present value is strictly decreasing in the discount rate. -/
theorem c8_pv_strictly_decreasing_in_rate (series : List ℚ) (r1 r2 : ℚ)
    (hne : series ≠ []) (hpos : ∀ x ∈ series, 0 < x)
    (h1 : -1 < r1) (h12 : r1 < r2) :
    ∃ v1 v2, DCFValuation.calculate series r1 = .ok v1 ∧
      DCFValuation.calculate series r2 = .ok v2 ∧ v2 < v1 :=
  ⟨pvFormula series r1, pvFormula series r2,
   dcf_calculate_eq_pvFormula series r1 h1.ne',
   dcf_calculate_eq_pvFormula series r2 (h1.trans h12).ne',
   pvFormula_strict_anti series hne hpos h1 h12⟩

/-- Witness for C8 at `series = [1]`, `r1 = 0`, `r2 = 1`. -/
theorem c8_pv_strictly_decreasing_in_rate_witness :
    ∃ v1 v2, DCFValuation.calculate [1] 0 = .ok v1 ∧
      DCFValuation.calculate [1] 1 = .ok v2 ∧ v2 < v1 :=
  c8_pv_strictly_decreasing_in_rate [1] 0 1 (List.cons_ne_nil _ _) (by norm_num)
    (by norm_num) (by norm_num)

/-! ## The multiple-based family (Comps, Precedent Transactions) -/

lemma avg_peer_metrics_ok (p : List (String × List ℚ)) (hp : ∀ kv ∈ p, kv.2 ≠ []) :
    CompsValuation.avg_peer_metrics p = .ok (p.map fun kv => (kv.1, meanQ kv.2)) := by
  induction p with
  | nil => rfl
  | cons kv rest ih =>
    obtain ⟨k, v⟩ := kv
    have hv : v ≠ [] := hp (k, v) (List.mem_cons_self _ _)
    have hlen : ((v.length : ℚ)) ≠ 0 :=
      Nat.cast_ne_zero.mpr fun h => hv (List.length_eq_zero.mp h)
    simp only [CompsValuation.avg_peer_metrics, pydiv, if_neg hlen,
      ih fun kv hkv => hp kv (List.mem_cons_of_mem _ hkv), List.map_cons, meanQ]

lemma lookup_map_val {β γ : Type} (g : String → β → γ) (p : List (String × β)) (k : String) :
    (p.map fun kv => (kv.1, g kv.1 kv.2)).lookup k = (p.lookup k).map (g k) := by
  induction p with
  | nil => rfl
  | cons kv rest ih =>
    obtain ⟨a, b⟩ := kv
    by_cases hk : k = a
    · subst hk
      simp [List.lookup]
    · have hb : (k == a) = false := beq_eq_false_iff_ne.mpr hk
      simp [List.lookup, hb, ih]

lemma apply_multiples_ok (A : List (String × ℚ)) (t : List (String × ℚ))
    (ht : ∀ kv ∈ t, (A.lookup kv.1).isSome) :
    CompsValuation.apply_multiples A t =
      .ok (t.map fun kv => (kv.1, kv.2 * (A.lookup kv.1).getD 0)) := by
  induction t with
  | nil => rfl
  | cons kv rest ih =>
    obtain ⟨k, tv⟩ := kv
    obtain ⟨a, ha⟩ := Option.isSome_iff_exists.mp (ht (k, tv) (List.mem_cons_self _ _))
    simp only [CompsValuation.apply_multiples, ha,
      ih fun kv hkv => ht kv (List.mem_cons_of_mem _ hkv), List.map_cons, Option.getD_some]

lemma apply_multiples_missing (A : List (String × ℚ)) (t : List (String × ℚ))
    (hmiss : ∃ kv ∈ t, A.lookup kv.1 = none) :
    CompsValuation.apply_multiples A t = .error .missingMetric := by
  induction t with
  | nil =>
    obtain ⟨kv, hkv, _⟩ := hmiss
    exact absurd hkv (List.not_mem_nil _)
  | cons kv0 rest ih =>
    obtain ⟨k0, tv0⟩ := kv0
    by_cases h0 : A.lookup k0 = none
    · simp [CompsValuation.apply_multiples, h0]
    · obtain ⟨a, ha⟩ := Option.ne_none_iff_exists'.mp h0
      have hrest : ∃ kv ∈ rest, A.lookup kv.1 = none := by
        obtain ⟨kv, hkv, hnone⟩ := hmiss
        rcases List.mem_cons.mp hkv with heq | hmem
        · rw [heq] at hnone
          exact absurd hnone h0
        · exact ⟨kv, hmem, hnone⟩
      simp [CompsValuation.apply_multiples, ha, ih hrest]

lemma prec_avg_eq_comps_avg : ∀ p : List (String × List ℚ),
    PrecedentTransactionsValuation.avg_transaction_metrics p =
      CompsValuation.avg_peer_metrics p := by
  intro p
  induction p with
  | nil => rfl
  | cons kv rest ih =>
    obtain ⟨k, v⟩ := kv
    simp only [PrecedentTransactionsValuation.avg_transaction_metrics,
      CompsValuation.avg_peer_metrics, ih]

lemma prec_apply_eq_comps_apply (A : List (String × ℚ)) : ∀ t : List (String × ℚ),
    PrecedentTransactionsValuation.apply_transaction_multiples A t =
      CompsValuation.apply_multiples A t := by
  intro t
  induction t with
  | nil => rfl
  | cons kv rest ih =>
    obtain ⟨k, tv⟩ := kv
    simp only [PrecedentTransactionsValuation.apply_transaction_multiples,
      CompsValuation.apply_multiples, ih]

lemma prec_calculate_eq_comps_calculate (t : List (String × ℚ)) (p : List (String × List ℚ)) :
    PrecedentTransactionsValuation.calculate t p = CompsValuation.calculate t p := by
  unfold PrecedentTransactionsValuation.calculate CompsValuation.calculate
  rw [prec_avg_eq_comps_avg]
  cases CompsValuation.avg_peer_metrics p with
  | error e => rfl
  | ok avg => exact prec_apply_eq_comps_apply avg t

/-- C3: when the population covers all target keys and all population
value sequences are non-empty, Comps returns a mapping whose value at
each key `k` of the target is `target[k] * avg(population[k])`. -/
theorem c3_comps_target_times_population_mean (t : List (String × ℚ))
    (p : List (String × List ℚ))
    (hpop : ∀ kv ∈ p, kv.2 ≠ [])
    (hsub : ∀ kv ∈ t, (p.lookup kv.1).isSome) :
    ∃ res, CompsValuation.calculate t p = .ok res ∧
      ∀ k v s, t.lookup k = some v → p.lookup k = some s →
        res.lookup k = some (v * meanQ s) := by
  have hA : ∀ k, ((p.map fun kv => (kv.1, meanQ kv.2)).lookup k) =
      (p.lookup k).map fun s => meanQ s :=
    lookup_map_val (fun _ s => meanQ s) p
  have hsub' : ∀ kv ∈ t, (((p.map fun kv => (kv.1, meanQ kv.2)).lookup kv.1)).isSome := by
    intro kv hkv
    obtain ⟨s, hs⟩ := Option.isSome_iff_exists.mp (hsub kv hkv)
    rw [hA, hs]
    rfl
  refine ⟨t.map fun kv =>
      (kv.1, kv.2 * (((p.map fun kv => (kv.1, meanQ kv.2)).lookup kv.1)).getD 0), ?_, ?_⟩
  · unfold CompsValuation.calculate
    rw [avg_peer_metrics_ok p hpop]
    exact apply_multiples_ok _ t hsub'
  · intro k v s htk hpk
    rw [lookup_map_val (fun a b => b * (((p.map fun kv => (kv.1, meanQ kv.2)).lookup a)).getD 0) t k]
    simp [htk, hA k, hpk]

/-- Witness for C3 at target `{"EBITDA": 10}`, population
`{"EBITDA": [4, 6]}` (spec §8: mean 5, result 50). -/
theorem c3_comps_target_times_population_mean_witness :
    ∃ res, CompsValuation.calculate [("EBITDA", 10)] [("EBITDA", [4, 6])] = .ok res ∧
      ∀ k v s, List.lookup k [("EBITDA", (10:ℚ))] = some v →
        List.lookup k [("EBITDA", [(4:ℚ), 6])] = some s →
        res.lookup k = some (v * meanQ s) :=
  c3_comps_target_times_population_mean [("EBITDA", 10)] [("EBITDA", [4, 6])]
    (by decide) (by decide)

/-- C6: a target key absent from the (well-formed, per spec §3:
non-empty value sequences) population makes both Comps and Precedent
fail with the missing-metric error (Python's `KeyError`, the spec's
`MissingMetricError`); no default is substituted. -/
theorem c6_missing_key_missing_metric_error (t : List (String × ℚ))
    (p : List (String × List ℚ))
    (hpop : ∀ kv ∈ p, kv.2 ≠ [])
    (hmiss : ∃ kv ∈ t, p.lookup kv.1 = none) :
    CompsValuation.calculate t p = .error .missingMetric ∧
    PrecedentTransactionsValuation.calculate t p = .error .missingMetric := by
  have hA : ∀ k, ((p.map fun kv => (kv.1, meanQ kv.2)).lookup k) =
      (p.lookup k).map fun s => meanQ s :=
    lookup_map_val (fun _ s => meanQ s) p
  have hmiss' : ∃ kv ∈ t, ((p.map fun kv => (kv.1, meanQ kv.2)).lookup kv.1) = none := by
    obtain ⟨kv, hkv, hn⟩ := hmiss
    exact ⟨kv, hkv, by rw [hA, hn]; rfl⟩
  have hcomps : CompsValuation.calculate t p = .error .missingMetric := by
    unfold CompsValuation.calculate
    rw [avg_peer_metrics_ok p hpop]
    exact apply_multiples_missing _ t hmiss'
  exact ⟨hcomps, by rw [prec_calculate_eq_comps_calculate]; exact hcomps⟩

/-- Witness for C6 at target `{"A": 1}`, population `{"B": [2]}`. -/
theorem c6_missing_key_missing_metric_error_witness :
    CompsValuation.calculate [("A", 1)] [("B", [2])] = .error .missingMetric ∧
    PrecedentTransactionsValuation.calculate [("A", 1)] [("B", [2])] = .error .missingMetric :=
  c6_missing_key_missing_metric_error [("A", 1)] [("B", [2])] (by decide) (by decide)

/-- C9: on every pair of inputs, the Precedent-Transactions strategy
computes exactly the same result as the Comps strategy — the two
`calculate` bodies are the same function up to variable names. -/
theorem c9_precedent_equals_comps (t : List (String × ℚ)) (p : List (String × List ℚ)) :
    PrecedentTransactionsValuation.calculate t p = CompsValuation.calculate t p :=
  prec_calculate_eq_comps_calculate t p

/-! ## The YTM bisection solver -/

lemma expand_none (f : ℚ → ℚ) (hf : ∀ x : ℚ, 0 < x → 0 < f x) :
    ∀ (fuel : ℕ) (low high : ℚ), 0 < high →
      YTMValuation.expand f fuel low high = none := by
  intro fuel
  induction fuel with
  | zero =>
    intro low high hh
    simp [YTMValuation.expand, hf high hh]
  | succ n ih =>
    intro low high hh
    simp only [YTMValuation.expand, if_pos (hf high hh)]
    exact ih high (high * 2) (by linarith)

lemma ytm_objective_pos_of_zero_price (x : ℚ) (hx : 0 < x) :
    0 < YTMValuation.ytm_function 0 (1/20) 1000 1 x := by
  have h1x : (0 : ℚ) < 1 + x := by linarith
  have key : YTMValuation.ytm_function 0 (1/20) 1000 1 x = 1050 / (1 + x) := by
    simp only [YTMValuation.ytm_function, YTMValuation.couponSum]
    rw [pow_one, zero_add, sub_zero, div_add_div_same]
    norm_num
  rw [key]
  exact div_pos (by norm_num) h1x

/-- C2 (failing input): with `current_price = 0`, `coupon_rate = 0.05`,
`face_value = 1000`, `years_to_maturity = 1` the objective is positive
at every positive rate, so the bracket-expansion loop never exits: the
solver of the code returns nothing at every fuel bound — it has no
iteration cap and never signals any `NoSolutionError`. -/
theorem c2_bracket_expansion_never_exits (fuel : ℕ) :
    YTMValuation.calculate 0 (1/20) 1000 1 fuel = none := by
  unfold YTMValuation.calculate
  rw [expand_none _ ytm_objective_pos_of_zero_price fuel 0 1 one_pos]

lemma expand_bracket (f : ℚ → ℚ) : ∀ (fuel : ℕ) (low high l h : ℚ), 0 ≤ low → low < high →
    YTMValuation.expand f fuel low high = some (l, h) → 0 ≤ l ∧ l < h := by
  intro fuel
  induction fuel with
  | zero =>
    intro low high l h h0 hlt he
    simp only [YTMValuation.expand] at he
    split at he
    · exact absurd he (by simp)
    · simp only [Option.some.injEq, Prod.mk.injEq] at he
      obtain ⟨h1, h2⟩ := he
      subst h1
      subst h2
      exact ⟨h0, hlt⟩
  | succ n ih =>
    intro low high l h h0 hlt he
    simp only [YTMValuation.expand] at he
    split at he
    · exact ih high (high * 2) l h (by linarith) (by linarith) he
    · simp only [Option.some.injEq, Prod.mk.injEq] at he
      obtain ⟨h1, h2⟩ := he
      subst h1
      subst h2
      exact ⟨h0, hlt⟩

lemma bisect_pos (f : ℚ → ℚ) : ∀ (fuel : ℕ) (low high y : ℚ), 0 ≤ low → low < high →
    YTMValuation.bisect f fuel low high = some y → 0 < y := by
  intro fuel
  induction fuel with
  | zero =>
    intro low high y h0 hlt hb
    simp only [YTMValuation.bisect] at hb
    split at hb
    · exact absurd hb (by simp)
    · obtain rfl : high = y := by simpa using hb
      linarith
  | succ n ih =>
    intro low high y h0 hlt hb
    simp only [YTMValuation.bisect] at hb
    split at hb
    · split at hb
      · exact ih ((low + high) / 2) high y (by linarith) (by linarith) hb
      · exact ih low ((low + high) / 2) y h0 (by linarith) hb
    · obtain rfl : high = y := by simpa using hb
      linarith

/-- C10: any numeric result of the YTM solver is strictly positive: the
bracket starts at `[0, 1]`, expansion and bisection keep
`0 ≤ low < high`, and the returned value is `high`. -/
theorem c10_ytm_result_strictly_positive (cp c F : ℚ) (T fuel : ℕ) (y : ℚ)
    (hy : YTMValuation.calculate cp c F T fuel = some y) : 0 < y := by
  unfold YTMValuation.calculate at hy
  cases he : YTMValuation.expand (YTMValuation.ytm_function cp c F T) fuel 0 1 with
  | none =>
    rw [he] at hy
    exact absurd hy (by simp)
  | some lh =>
    obtain ⟨l, hi⟩ := lh
    rw [he] at hy
    obtain ⟨hl0, hlh⟩ := expand_bracket _ fuel 0 1 l hi le_rfl one_pos he
    exact bisect_pos _ fuel l hi y hl0 hlh hy

lemma expand_immediate (f : ℚ → ℚ) (fuel : ℕ) (low high : ℚ) (h : ¬ 0 < f high) :
    YTMValuation.expand f fuel low high = some (low, high) := by
  cases fuel <;> simp [YTMValuation.expand, h]

lemma bisect_exists (f : ℚ → ℚ) : ∀ (fuel : ℕ) (low high : ℚ),
    high - low ≤ 2 ^ fuel * (1/1000000) →
    ∃ y, YTMValuation.bisect f fuel low high = some y := by
  intro fuel
  induction fuel with
  | zero =>
    intro low high hgap
    rw [pow_zero, one_mul] at hgap
    exact ⟨high, by simp only [YTMValuation.bisect, if_neg (not_lt.mpr hgap)]⟩
  | succ n ih =>
    intro low high hgap
    have h2 : (2 : ℚ) ^ (n + 1) * (1/1000000) = 2 * (2 ^ n * (1/1000000)) := by ring
    rw [h2] at hgap
    by_cases hc : high - low > 1/1000000
    · by_cases hm : 0 < f ((low + high) / 2)
      · obtain ⟨y, hy⟩ := ih ((low + high) / 2) high (by linarith)
        exact ⟨y, by simp only [YTMValuation.bisect, if_pos hc, if_pos hm]; exact hy⟩
      · obtain ⟨y, hy⟩ := ih low ((low + high) / 2) (by linarith)
        exact ⟨y, by simp only [YTMValuation.bisect, if_pos hc, if_neg hm]; exact hy⟩
    · exact ⟨high, by simp only [YTMValuation.bisect, if_neg hc]⟩

lemma bisect_inv (f : ℚ → ℚ) : ∀ (fuel : ℕ) (low high y : ℚ),
    0 ≤ low → low < high → 0 < f low → ¬ 0 < f high →
    YTMValuation.bisect f fuel low high = some y →
    ¬ 0 < f y ∧ ∃ l, 0 ≤ l ∧ l < y ∧ 0 < f l ∧ y - l ≤ 1/1000000 := by
  intro fuel
  induction fuel with
  | zero =>
    intro low high y h0 hlt hflow hfhigh hb
    simp only [YTMValuation.bisect] at hb
    split at hb
    · exact absurd hb (by simp)
    next hcond =>
      obtain rfl : high = y := by simpa using hb
      exact ⟨hfhigh, low, h0, hlt, hflow, by linarith [not_lt.mp hcond]⟩
  | succ n ih =>
    intro low high y h0 hlt hflow hfhigh hb
    simp only [YTMValuation.bisect] at hb
    split at hb
    · split at hb
      next hm => exact ih ((low + high) / 2) high y (by linarith) (by linarith) hm hfhigh hb
      next hm => exact ih low ((low + high) / 2) y h0 (by linarith) hflow hm hb
    next hcond =>
      obtain rfl : high = y := by simpa using hb
      exact ⟨hfhigh, low, h0, hlt, hflow, by linarith [not_lt.mp hcond]⟩

lemma couponSum_anti (c F : ℚ) (hcF : 0 ≤ c * F) {r1 r2 : ℚ} (h1 : -1 < r1) (h12 : r1 ≤ r2) :
    ∀ T, YTMValuation.couponSum c F r2 T ≤ YTMValuation.couponSum c F r1 T := by
  intro T
  induction T with
  | zero => exact le_refl _
  | succ n ih =>
    simp only [YTMValuation.couponSum]
    refine add_le_add ih ?_
    have hp1 : (0 : ℚ) < (1 + r1) ^ (n + 1) := pow_pos (by linarith) _
    exact div_le_div_of_nonneg_left hcF hp1
      (pow_le_pow_left₀ (by linarith) (by linarith) _)

lemma ytm_function_strict_anti (cp c F : ℚ) (T : ℕ) (hcF : 0 ≤ c * F) (hF : 0 < F)
    (hT : T ≠ 0) {r1 r2 : ℚ} (h1 : -1 < r1) (h12 : r1 < r2) :
    YTMValuation.ytm_function cp c F T r2 < YTMValuation.ytm_function cp c F T r1 := by
  unfold YTMValuation.ytm_function
  have hface : F / (1 + r2) ^ T < F / (1 + r1) ^ T :=
    div_lt_div_of_pos_left hF (pow_pos (by linarith) T)
      (pow_lt_pow_left₀ (by linarith) (by linarith) hT)
  have hcoup := couponSum_anti c F hcF h1 (le_of_lt h12) T
  linarith

/-- The par-bond solver run of spec §8, assembled from the bracket and
bisection invariants: the solver terminates within fuel 30 and its
result is within `1e-6` of the coupon rate `0.05`. -/
lemma par_bond_run :
    ∃ y, YTMValuation.calculate 1000 (1/20) 1000 10 30 = some y ∧
      |y - 1/20| ≤ 1/1000000 := by
  set f := YTMValuation.ytm_function 1000 (1/20) 1000 10 with hfdef
  have hf1 : ¬ 0 < f 1 := by
    rw [hfdef]
    norm_num [YTMValuation.ytm_function, YTMValuation.couponSum]
  have hf0 : 0 < f 0 := by
    rw [hfdef]
    norm_num [YTMValuation.ytm_function, YTMValuation.couponSum]
  have hfc : f (1/20) = 0 := by
    rw [hfdef]
    norm_num [YTMValuation.ytm_function, YTMValuation.couponSum]
  have hanti : ∀ {r1 r2 : ℚ}, -1 < r1 → r1 < r2 → f r2 < f r1 := by
    intro r1 r2 h1 h12
    rw [hfdef]
    exact ytm_function_strict_anti 1000 (1/20) 1000 10 (by norm_num) (by norm_num)
      (by norm_num) h1 h12
  obtain ⟨y, hy⟩ := bisect_exists f 30 0 1 (by norm_num)
  obtain ⟨hfy, l, hl0, hly, hfl, hgap⟩ := bisect_inv f 30 0 1 y le_rfl one_pos hf0 hf1 hy
  have hy_ge : 1/20 ≤ y := by
    by_contra hlt
    push_neg at hlt
    have h1y : (-1 : ℚ) < y := by linarith
    have := hanti h1y hlt
    rw [hfc] at this
    exact hfy this
  have hl_lt : l < 1/20 := by
    by_contra hge
    push_neg at hge
    rcases eq_or_lt_of_le hge with heq | hlt2
    · rw [heq] at hfc
      exact absurd hfc (ne_of_gt hfl)
    · have := hanti (by norm_num) hlt2
      rw [hfc] at this
      linarith
  refine ⟨y, ?_, ?_⟩
  · unfold YTMValuation.calculate
    rw [← hfdef, expand_immediate f 30 0 1 hf1]
    exact hy
  · rw [abs_le]
    constructor <;> linarith

/-- Witness for C10 at the par bond run. -/
theorem c10_ytm_result_strictly_positive_witness :
    ∃ y, YTMValuation.calculate 1000 (1/20) 1000 10 30 = some y ∧ 0 < y := by
  obtain ⟨y, hy, _⟩ := par_bond_run
  exact ⟨y, hy, c10_ytm_result_strictly_positive 1000 (1/20) 1000 10 30 y hy⟩

/-- C7: on the par bond (`currentPrice = 1000`, `couponRate = 0.05`,
`faceValue = 1000`, `yearsToMaturity = 10`) the solver returns a yield
within its stated rate tolerance `1e-6` of the coupon rate `0.05`. -/
theorem c7_par_bond_yield_approx_coupon_rate :
    ∃ y, YTMValuation.calculate 1000 (1/20) 1000 10 30 = some y ∧
      |y - 1/20| ≤ 1/1000000 :=
  par_bond_run

end FinancialPortfolio
